import Mathlib

/-!
Verification of the supamigrate migration pipeline against its specification.

The development shallowly embeds the core of the Rust sources:
* `src/storage/transfer.rs` — the object transfer engine and its statistics,
* `src/db/transform.rs`     — the SQL compatibility rewrite,
* `src/db/dump.rs`          — export-tool argument construction,
* `src/db/restore.rs`       — import-tool failure detection,
* `src/storage/client.rs`   — object listing requests,
* `src/commands/restore.rs` — the function-artifact restore loop,
* `src/functions/client.rs` — function deployment.

External effects (HTTP calls, subprocess execution) are represented by
explicit environment parameters giving each call's outcome, and the
bounded-concurrency stream combinator is represented by a small-step
scheduler relation.
-/

namespace Supamigrate

/-! ## Transfer statistics (`src/storage/transfer.rs`) -/

/-- The statistics record accumulated by the transfer engine
(struct `SyncStats`, transfer.rs lines 221-227). -/
structure SyncStats where
  buckets : Nat
  objects : Nat
  bytes : Nat
  errors : Nat
deriving DecidableEq, Repr

/-- `SyncStats::default()`: all counters zero. -/
def initStats : SyncStats := ⟨0, 0, 0, 0⟩

/-- Outcome of one object move (the async closure of
`transfer_objects`, transfer.rs lines 106-112): either the transferred
payload size or an error. -/
abbrev MoveResult := Except String Nat

/-- The tally loop of `transfer_objects` (transfer.rs lines 120-131):
an `Ok(size)` increments `objects` and adds to `bytes`; an `Err`
increments `errors`. -/
def transferStatsOf (results : List MoveResult) : SyncStats :=
  results.foldl
    (fun s r =>
      match r with
      | .ok size => { s with objects := s.objects + 1, bytes := s.bytes + size }
      | .error _ => { s with errors := s.errors + 1 })
    initStats

/-- The aggregation loop of `sync_all` (transfer.rs lines 45-52): per
bucket it increments `buckets` and adds the bucket's `objects` and
`bytes`; the bucket's `errors` field is not added. -/
def syncAllFold (bucketStats : List SyncStats) : SyncStats :=
  bucketStats.foldl
    (fun s b =>
      { s with
        buckets := s.buckets + 1
        objects := s.objects + b.objects
        bytes := s.bytes + b.bytes })
    initStats

/-- The aggregation loop of `download_all` (transfer.rs lines 141-148),
identical in shape to the `sync_all` one: `errors` is again not added. -/
def downloadAllFold (bucketStats : List SyncStats) : SyncStats :=
  bucketStats.foldl
    (fun s b =>
      { s with
        buckets := s.buckets + 1
        objects := s.objects + b.objects
        bytes := s.bytes + b.bytes })
    initStats

/-- The transfer engine value (struct `StorageTransfer`, transfer.rs
lines 10-14); clients are identified by their base-URL string, which is
all the control flow depends on. -/
structure StorageTransfer where
  source : String
  target : Option String
  parallel : Nat
deriving DecidableEq, Repr

/-- `StorageTransfer::new` (transfer.rs lines 17-23): no target,
default concurrency 4. -/
def StorageTransfer.new (src : String) : StorageTransfer :=
  { source := src, target := none, parallel := 4 }

/-- `StorageTransfer::with_target` (transfer.rs lines 25-28). -/
def StorageTransfer.withTarget (t : StorageTransfer) (tgt : String) : StorageTransfer :=
  { t with target := some tgt }

/-- The builder method `parallel` (transfer.rs lines 30-33). -/
def StorageTransfer.withParallel (t : StorageTransfer) (count : Nat) : StorageTransfer :=
  { t with parallel := count }

/-- Result of running a Rust function that may panic: either the panic
message of an `expect`, or the returned value. -/
inductive RunOutcome (α : Type) where
  | crash (msg : String)
  | ret (r : α)

/-- Environment for one `sync_all` run: the outcome of the bucket
listing and, per bucket name, the outcome of `sync_bucket`. -/
structure SyncEnv where
  listBuckets : Except String (List String)
  bucketStats : String → Except String SyncStats

/-- `StorageTransfer::sync_all` (transfer.rs lines 36-55): first the
`expect` on the optional target — a Rust panic when the target was
never set — then bucket enumeration and the aggregation loop (which
adds only `objects` and `bytes` of each bucket's statistics). -/
def syncAllRun (t : StorageTransfer) (env : SyncEnv) :
    RunOutcome (Except String SyncStats) :=
  match t.target with
  | none => .crash "Target client required for sync"
  | some _ =>
    .ret (do
      let buckets ← env.listBuckets
      buckets.foldlM
        (fun stats b => do
          let bs ← env.bucketStats b
          pure { stats with
                   buckets := stats.buckets + 1
                   objects := stats.objects + bs.objects
                   bytes := stats.bytes + bs.bytes })
        initStats)

/-! ## The bounded-concurrency scheduler

`transfer_objects` (transfer.rs lines 98-116) drives the object moves
through `stream::iter(objects).map(...).buffer_unordered(parallel)`:
at most `parallel` moves are in flight at once, every enumerated object
is fed to the stream once, and completions are collected in completion
order.  The combinator is embedded as a small-step scheduler over the
indices `0..k` of the enumerated objects. -/

/-- Scheduler state: object indices not yet launched (in enumeration
order), launched but not completed, and completed (in completion
order). -/
structure SchedState where
  pending : List Nat
  inflight : List Nat
  done : List Nat
deriving DecidableEq, Repr

/-- Initial state of a transfer of `k` enumerated objects. -/
def schedInit (k : Nat) : SchedState := ⟨List.range k, [], []⟩

/-- One step of `buffer_unordered` with concurrency bound `c`: the next
pending object may be launched while fewer than `c` moves are in
flight, and any in-flight move may complete (completion order is
unconstrained).  A completion never touches the other pending or
in-flight moves, whatever its outcome. -/
inductive SchedStep (c : Nat) : SchedState → SchedState → Prop where
  | launch (i : Nat) (rest infl dn : List Nat) (h : infl.length < c) :
      SchedStep c ⟨i :: rest, infl, dn⟩ ⟨rest, infl ++ [i], dn⟩
  | complete (pend pre post dn : List Nat) (i : Nat) :
      SchedStep c ⟨pend, pre ++ i :: post, dn⟩ ⟨pend, pre ++ post, dn ++ [i]⟩

/-- Reachability under the scheduler. -/
def SchedReach (c : Nat) : SchedState → SchedState → Prop :=
  Relation.ReflTransGen (SchedStep c)

/-! ## Strings as character lists

Rust `&str` values are embedded as `List Char`; `String.toList` turns a
Lean string literal into its embedding. -/

/-- Embedded Rust string: a list of characters. -/
abbrev Str := List Char

/-- Embed a Lean string literal. -/
def strOf (s : String) : Str := s.toList

/-- The Unicode White_Space characters, as recognised by Rust's
`char::is_whitespace` (used by `str::trim`). -/
def rustWsChars : Str :=
  ['\t', '\n', '\x0b', '\x0c', '\r', ' ', '\u0085', '\u00A0', '\u1680',
   '\u2000', '\u2001', '\u2002', '\u2003', '\u2004', '\u2005', '\u2006',
   '\u2007', '\u2008', '\u2009', '\u200A', '\u2028', '\u2029', '\u202F',
   '\u205F', '\u3000']

/-- Rust `char::is_whitespace`. -/
def isRustWs (c : Char) : Bool := rustWsChars.contains c

/-- Remove trailing whitespace (the second half of Rust `str::trim`). -/
def trimEndWs (l : Str) : Str := (l.reverse.dropWhile isRustWs).reverse

/-- Rust `str::trim`: drop leading and trailing whitespace. -/
def rustTrim (l : Str) : Str := trimEndWs (l.dropWhile isRustWs)

/-- Split a character list at every `'\n'`; always returns at least one
(possibly empty) segment, like the raw split underlying `str::lines`. -/
def splitNl : Str → List Str
  | [] => [[]]
  | c :: cs =>
    if c = '\n' then [] :: splitNl cs
    else
      match splitNl cs with
      | [] => [[c]]
      | l :: ls => (c :: l) :: ls

/-- Join segments with `'\n'` separators: Rust `[&str]::join("\n")`. -/
def joinNl : List Str → Str
  | [] => []
  | [l] => l
  | l :: l' :: ls => l ++ '\n' :: joinNl (l' :: ls)

/-- Drop one trailing `'\r'` (Rust `lines` strips a carriage return at
the end of a newline-terminated line). -/
def stripCr (l : Str) : Str := if l.getLast? = some '\r' then l.dropLast else l

/-- Rust `str::lines`: split at `'\n'`, strip a `'\r'` at the end of
every newline-terminated segment, and do not emit a final empty
segment. -/
def rustLines (s : Str) : List Str :=
  let ps := splitNl s
  let body := (ps.dropLast).map stripCr
  match ps.getLast? with
  | none => []
  | some [] => body
  | some l => body ++ [l]

/-- A segment that round-trips through `join("\n")` followed by
`lines()`: it holds no newline and does not end in a carriage return. -/
def goodLine (l : Str) : Prop := '\n' ∉ l ∧ l.getLast? ≠ some '\r'

/-- A segment list that round-trips through `join("\n")` followed by
`lines()`: well-formed segments whose last segment is not empty. -/
def goodLines (ls : List Str) : Prop :=
  (∀ l ∈ ls, goodLine l) ∧ ls.getLast? ≠ some []

/-! ## The SQL rewrite (`src/db/transform.rs`) -/

/-- The comment marker prepended to a disabled line. -/
def commentMark : Str := strOf "-- "

/-- Per-line action of `comment_line` (transform.rs lines 30-41): a
line whose trimmed form equals the target is prefixed with `"-- "`. -/
def commentLineMap (target : Str) (line : Str) : Str :=
  if rustTrim line = target then commentMark ++ line else line

/-- `SqlTransformer::comment_line` (transform.rs lines 30-41). -/
def commentLine (target : Str) (sql : Str) : Str :=
  joinNl ((rustLines sql).map (commentLineMap target))

/-- Per-line action of `comment_lines_starting_with` (transform.rs
lines 44-55): a line whose trimmed form starts with the pattern is
prefixed with `"-- "`. -/
def commentStartMap (pat : Str) (line : Str) : Str :=
  if pat.isPrefixOf (rustTrim line) then commentMark ++ line else line

/-- `SqlTransformer::comment_lines_starting_with` (transform.rs lines
44-55). -/
def commentLinesStartingWith (pat : Str) (sql : Str) : Str :=
  joinNl ((rustLines sql).map (commentStartMap pat))

/-- Managed-schema statement disabled by the rewrite. -/
def tDropAuth : Str := strOf "DROP SCHEMA IF EXISTS \"auth\";"

/-- Managed-schema statement disabled by the rewrite. -/
def tCreateAuth : Str := strOf "CREATE SCHEMA \"auth\";"

/-- Managed-schema statement disabled by the rewrite. -/
def tDropStorage : Str := strOf "DROP SCHEMA IF EXISTS \"storage\";"

/-- Managed-schema statement disabled by the rewrite. -/
def tCreateStorage : Str := strOf "CREATE SCHEMA \"storage\";"

/-- The platform-owner default-privileges statement pattern. -/
def alterPat : Str := strOf "ALTER DEFAULT PRIVILEGES FOR ROLE \"supabase_admin\""

/-- `SqlTransformer::transform` (transform.rs lines 8-27): the five
rewrite passes in source order. -/
def transform (sql : Str) : Str :=
  commentLinesStartingWith alterPat
    (commentLine tCreateStorage
      (commentLine tDropStorage
        (commentLine tCreateAuth
          (commentLine tDropAuth sql))))

/-- The composite per-line action of the five passes. -/
def transformLine (l : Str) : Str :=
  commentStartMap alterPat
    (commentLineMap tCreateStorage
      (commentLineMap tDropStorage
        (commentLineMap tCreateAuth
          (commentLineMap tDropAuth l))))

/-- A line triggers the rewrite when its trimmed form equals one of the
four managed-schema statements or starts with the privileges pattern. -/
def isTrigger (l : Str) : Bool :=
  (rustTrim l = tDropAuth || rustTrim l = tCreateAuth ||
   rustTrim l = tDropStorage || rustTrim l = tCreateStorage) ||
  alterPat.isPrefixOf (rustTrim l)

/-! ## Import-tool failure detection (`src/db/restore.rs`) -/

/-- Substring test for the literal token `"ERROR"` (Rust
`str::contains("ERROR")`). -/
def hasErrTok : Str → Bool
  | [] => (strOf "ERROR").isPrefixOf []
  | c :: cs => (strOf "ERROR").isPrefixOf (c :: cs) || hasErrTok cs

/-- Outcome of `PgRestore::restore_from_file` after the import tool ran
(restore.rs lines 44-55), as a function of the tool's exit status and
diagnostic output: an error is returned only when the status is
non-success and the diagnostics contain `"ERROR"`. -/
def restoreFromFileResult (statusSuccess : Bool) (stderrTxt : Str) : Except Str Unit :=
  if !statusSuccess then
    if hasErrTok stderrTxt then .error stderrTxt else .ok ()
  else .ok ()

/-- Outcome of `PgRestore::restore_from_string` after the import tool
ran (restore.rs lines 77-88): the same check as `restore_from_file`. -/
def restoreFromStringResult (statusSuccess : Bool) (stderrTxt : Str) : Except Str Unit :=
  if !statusSuccess then
    if hasErrTok stderrTxt then .error stderrTxt else .ok ()
  else .ok ()

/-! ## Export-tool invocation (`src/db/dump.rs`) -/

/-- The dump configuration (struct `PgDump`, dump.rs lines 6-12). -/
structure PgDump where
  dbUrl : String
  excludedSchemas : List String
  excludedTables : List String
  schemaOnly : Bool
  dataOnly : Bool
deriving DecidableEq, Repr

/-- `PgDump::new` (dump.rs lines 15-23). -/
def PgDump.new (dbUrl : String) : PgDump :=
  { dbUrl, excludedSchemas := [], excludedTables := [], schemaOnly := false,
    dataOnly := false }

/-- The argument list `dump_to_file` passes to the export tool
(dump.rs lines 65-97), in construction order. -/
def dumpToFileArgs (d : PgDump) (outputPath : String) : List String :=
  [d.dbUrl, "--clean", "--if-exists", "--quote-all-identifiers"]
  ++ (if d.schemaOnly then ["--schema-only"] else [])
  ++ (if d.dataOnly then ["--data-only"] else [])
  ++ ["--exclude-table-data=storage.objects"]
  ++ (if d.excludedSchemas.isEmpty then []
      else ["--exclude-schema=" ++ String.intercalate "|" d.excludedSchemas])
  ++ d.excludedTables.map (fun t => "--exclude-table=" ++ t)
  ++ ["--schema=*"]
  ++ ["-f", outputPath]

/-- The argument list `dump_to_string` passes to the export tool
(dump.rs lines 116-140): the same flags without the output-file pair. -/
def dumpToStringArgs (d : PgDump) : List String :=
  [d.dbUrl, "--clean", "--if-exists", "--quote-all-identifiers"]
  ++ (if d.schemaOnly then ["--schema-only"] else [])
  ++ (if d.dataOnly then ["--data-only"] else [])
  ++ ["--exclude-table-data=storage.objects"]
  ++ (if d.excludedSchemas.isEmpty then []
      else ["--exclude-schema=" ++ String.intercalate "|" d.excludedSchemas])
  ++ d.excludedTables.map (fun t => "--exclude-table=" ++ t)
  ++ ["--schema=*"]

/-- Errors `dump_to_file` can produce (error.rs: `PgDumpNotFound`,
`PgDumpFailed`); the error enum has no configuration-conflict variant
reachable from dump.rs. -/
inductive DumpErr where
  | pgDumpNotFound
  | pgDumpFailed (diag : String)
deriving DecidableEq, Repr

/-- Environment for one `dump_to_file` run: whether the availability
probe succeeds, and the exit status / diagnostics of the dump
invocation. -/
structure DumpEnv where
  toolAvailable : Bool
  runFails : Bool
  stderrTxt : String

/-- `PgDump::dump_to_file` (dump.rs lines 60-110): availability probe,
then a single export-tool invocation with the constructed arguments.
The second component records the dump invocations actually issued. -/
def dumpToFileRun (d : PgDump) (outputPath : String) (env : DumpEnv) :
    Except DumpErr Unit × List (List String) :=
  if !env.toolAvailable then (.error .pgDumpNotFound, [])
  else
    let args := dumpToFileArgs d outputPath
    if env.runFails then (.error (.pgDumpFailed env.stderrTxt), [args])
    else (.ok (), [args])

/-! ## Object listing (`src/storage/client.rs`) -/

/-- The JSON body of a `list_objects` request (client.rs lines
123-130). -/
structure ListObjectsBody where
  limit : Nat
  offset : Nat
  prefixFilter : Option String
deriving DecidableEq, Repr

/-- The body `StorageClient::list_objects` sends (client.rs lines
123-130): `limit = 1000`, `offset = 0`, the optional prefix.  The
function issues exactly one request with this body and returns the
parsed response; there is no pagination loop. -/
def listObjectsBody (p : Option String) : ListObjectsBody :=
  { limit := 1000, offset := 0, prefixFilter := p }

/-- Modelled from the spec: the external object-store listing endpoint
(spec §6, "list objects in a bucket (JSON body with limit=1000,
offset=0, optional prefix)") — not code of this repository.  Standard
pagination semantics: the objects matching the optional prefix,
skipping `offset` of them, at most `limit` returned. -/
def serverListObjects (objs : List String) (b : ListObjectsBody) : List String :=
  ((match b.prefixFilter with
    | none => objs
    | some p => objs.filter (fun o => (strOf p).isPrefixOf (strOf o))).drop
    b.offset).take b.limit

/-- The object set `sync_bucket` enumerates for transfer (transfer.rs
line 71): the response to the single default listing request
(`prefix = None`). -/
def enumerateObjects (objs : List String) : List String :=
  serverListObjects objs (listObjectsBody none)

/-! ## Function-artifact restore (`src/commands/restore.rs`, `src/functions/client.rs`) -/

/-- The deploy loop of `restore_functions` (commands/restore.rs lines
163-211) over the per-artifact registry outcomes: `true` when
`deploy_function` returns `Ok` (the registry answered success), `false`
when it returns the `Functions` error for a non-success response
(functions/client.rs lines 231-238).  Each iteration deploys the next
artifact; an `Err` is propagated immediately by `?`, a success
increments the counter.  Returns the indices of the artifacts whose
deploy was attempted, and the loop's result. -/
def restoreFunctionsLoop : List Bool → Nat → Nat → List Nat × Except String Nat
  | [], _, count => ([], .ok count)
  | accepted :: rest, idx, count =>
    if accepted then
      let (att, r) := restoreFunctionsLoop rest (idx + 1) (count + 1)
      (idx :: att, r)
    else ([idx], .error "Failed to deploy function")

/-- `restore_functions` applied to a batch of artifacts with the given
registry outcomes. -/
def restoreFunctions (outcomes : List Bool) : List Nat × Except String Nat :=
  restoreFunctionsLoop outcomes 0 0

/-! ## Helper lemmas -/

theorem transferStatsOf_go (rs : List MoveResult) (s : SyncStats) :
    (rs.foldl
      (fun s r =>
        match r with
        | .ok size => { s with objects := s.objects + 1, bytes := s.bytes + size }
        | .error _ => { s with errors := s.errors + 1 })
      s).objects
    + (rs.foldl
      (fun s r =>
        match r with
        | .ok size => { s with objects := s.objects + 1, bytes := s.bytes + size }
        | .error _ => { s with errors := s.errors + 1 })
      s).errors
    = s.objects + s.errors + rs.length := by
  induction rs generalizing s with
  | nil => simp
  | cons r rs ih =>
    cases r with
    | ok size => simp [List.foldl_cons, ih]; omega
    | error e => simp [List.foldl_cons, ih]; omega

/-- Per bucket, succeeded plus failed equals attempted: the tally of a
result list (one entry per enumerated object) satisfies
`objects + errors = length`. -/
theorem transferStatsOf_objects_add_errors (rs : List MoveResult) :
    (transferStatsOf rs).objects + (transferStatsOf rs).errors = rs.length := by
  simpa [transferStatsOf, initStats] using transferStatsOf_go rs initStats

/-- The single listing request of the enumeration keeps the first 1000
objects of the bucket. -/
theorem enumerateObjects_eq_take (objs : List String) :
    enumerateObjects objs = objs.take 1000 := by
  simp [enumerateObjects, serverListObjects, listObjectsBody]

theorem splitNl_cons_nl (cs : Str) : splitNl ('\n' :: cs) = [] :: splitNl cs := rfl

theorem splitNl_cons_ne (c : Char) (cs : Str) (hc : c ≠ '\n') :
    splitNl (c :: cs)
      = match splitNl cs with
        | [] => [[c]]
        | l :: ls => (c :: l) :: ls := by
  conv_lhs => rw [splitNl]
  rw [if_neg hc]

theorem splitNl_ne_nil (s : Str) : splitNl s ≠ [] := by
  cases s with
  | nil => simp [splitNl]
  | cons c cs =>
    by_cases h : c = '\n'
    · subst h; rw [splitNl_cons_nl]; simp
    · rw [splitNl_cons_ne c cs h]
      cases hs : splitNl cs <;> simp

theorem splitNl_single (s : Str) (h : '\n' ∉ s) : splitNl s = [s] := by
  induction s with
  | nil => rfl
  | cons c cs ih =>
    have hc : c ≠ '\n' := fun e => h (by simp [e])
    have hcs : '\n' ∉ cs := fun m => h (by simp [m])
    rw [splitNl_cons_ne c cs hc, ih hcs]

theorem splitNl_append_nl (l r : Str) (h : '\n' ∉ l) :
    splitNl (l ++ '\n' :: r) = l :: splitNl r := by
  induction l with
  | nil => simp [splitNl]
  | cons c cs ih =>
    have hc : c ≠ '\n' := fun e => h (by simp [e])
    have hcs : '\n' ∉ cs := fun m => h (by simp [m])
    rw [List.cons_append, splitNl_cons_ne c _ hc, ih hcs]

theorem splitNl_joinNl (ls : List Str) (hne : ls ≠ [])
    (h : ∀ l ∈ ls, '\n' ∉ l) : splitNl (joinNl ls) = ls := by
  induction ls with
  | nil => exact absurd rfl hne
  | cons l ls ih =>
    cases ls with
    | nil => exact splitNl_single l (h l (by simp))
    | cons l2 ls2 =>
      have hj : joinNl (l :: l2 :: ls2) = l ++ '\n' :: joinNl (l2 :: ls2) := rfl
      rw [hj, splitNl_append_nl l _ (h l (by simp)),
        ih (by simp) (fun x hx => h x (by simp [hx]))]

theorem joinNl_splitNl (s : Str) : joinNl (splitNl s) = s := by
  induction s with
  | nil => rfl
  | cons c cs ih =>
    by_cases hc : c = '\n'
    · subst hc
      rw [splitNl_cons_nl]
      cases h : splitNl cs with
      | nil => exact absurd h (splitNl_ne_nil cs)
      | cons l ls =>
        rw [h] at ih
        show ([] : Str) ++ '\n' :: joinNl (l :: ls) = '\n' :: cs
        simpa using congrArg (fun x => '\n' :: x) ih
    · rw [splitNl_cons_ne c cs hc]
      cases h : splitNl cs with
      | nil => exact absurd h (splitNl_ne_nil cs)
      | cons l ls =>
        rw [h] at ih
        cases ls with
        | nil =>
          show c :: l = c :: cs
          have hl : l = cs := ih
          rw [hl]
        | cons l2 ls2 =>
          show (c :: l) ++ '\n' :: joinNl (l2 :: ls2) = c :: cs
          rw [List.cons_append]
          have hl : l ++ '\n' :: joinNl (l2 :: ls2) = cs := ih
          rw [hl]

theorem splitNl_mem_no_nl (s : Str) (l : Str) (hl : l ∈ splitNl s) : '\n' ∉ l := by
  induction s generalizing l with
  | nil =>
    simp only [splitNl, List.mem_singleton] at hl
    subst hl; simp
  | cons c cs ih =>
    by_cases hc : c = '\n'
    · subst hc
      rw [splitNl_cons_nl] at hl
      rcases List.mem_cons.mp hl with h | h
      · subst h; simp
      · exact ih l h
    · rw [splitNl_cons_ne c cs hc] at hl
      cases h : splitNl cs with
      | nil => exact absurd h (splitNl_ne_nil cs)
      | cons p ps =>
        rw [h] at hl
        rcases List.mem_cons.mp hl with h1 | h1
        · subst h1
          intro hm
          rcases List.mem_cons.mp hm with h2 | h2
          · exact hc h2.symm
          · exact ih p (by rw [h]; simp) h2
        · exact ih l (by rw [h]; simp [h1])

theorem splitNl_mem_subset (s l : Str) (hl : l ∈ splitNl s) (c : Char)
    (hc : c ∈ l) : c ∈ s := by
  induction s generalizing l with
  | nil =>
    simp only [splitNl, List.mem_singleton] at hl
    subst hl; simp at hc
  | cons a as ih =>
    by_cases ha : a = '\n'
    · subst ha
      rw [splitNl_cons_nl] at hl
      rcases List.mem_cons.mp hl with h | h
      · subst h; simp at hc
      · exact List.mem_cons_of_mem _ (ih l h hc)
    · rw [splitNl_cons_ne a as ha] at hl
      cases h : splitNl as with
      | nil => exact absurd h (splitNl_ne_nil as)
      | cons p ps =>
        rw [h] at hl
        rcases List.mem_cons.mp hl with h1 | h1
        · subst h1
          rcases List.mem_cons.mp hc with h2 | h2
          · simp [h2]
          · exact List.mem_cons_of_mem _ (ih p (by rw [h]; simp) h2)
        · exact List.mem_cons_of_mem _ (ih l (by rw [h]; simp [h1]) hc)

theorem splitNl_last_ne_nil (s : Str) (h0 : s ≠ []) (h : s.getLast? ≠ some '\n') :
    (splitNl s).getLast? ≠ some [] := by
  induction s with
  | nil => exact absurd rfl h0
  | cons c cs ih =>
    cases cs with
    | nil =>
      have hc : c ≠ '\n' := fun e => h (by simp [e])
      rw [splitNl_cons_ne c [] hc]
      simp [splitNl]
    | cons c2 cs2 =>
      have h2 : (c2 :: cs2 : Str).getLast? ≠ some '\n' := by
        rwa [List.getLast?_cons_cons] at h
      have ihr := ih (by simp) h2
      by_cases hc : c = '\n'
      · subst hc
        rw [splitNl_cons_nl]
        cases hs : splitNl (c2 :: cs2) with
        | nil => exact absurd hs (splitNl_ne_nil _)
        | cons p ps =>
          rw [hs] at ihr
          rw [List.getLast?_cons_cons]
          exact ihr
      · rw [splitNl_cons_ne c _ hc]
        cases hs : splitNl (c2 :: cs2) with
        | nil => exact absurd hs (splitNl_ne_nil _)
        | cons p ps =>
          rw [hs] at ihr
          cases ps with
          | nil => simp
          | cons p2 ps2 =>
            show ((c :: p) :: p2 :: ps2).getLast? ≠ some []
            rw [List.getLast?_cons_cons]
            rwa [List.getLast?_cons_cons] at ihr

theorem mem_of_getLastQ {l : Str} {a : Char} (h : l.getLast? = some a) : a ∈ l := by
  cases l with
  | nil => simp at h
  | cons b bs =>
    have hne : (b :: bs : Str) ≠ [] := by simp
    rw [List.getLast?_eq_getLast _ hne] at h
    have hm := List.getLast_mem hne
    have ha := Option.some.inj h
    exact ha ▸ hm

theorem stripCr_eq_self (l : Str) (h : l.getLast? ≠ some '\r') : stripCr l = l := by
  unfold stripCr
  rw [if_neg h]

theorem rustLines_eq (s : Str) :
    rustLines s
      = match (splitNl s).getLast? with
        | none => []
        | some [] => ((splitNl s).dropLast).map stripCr
        | some l => ((splitNl s).dropLast).map stripCr ++ [l] := rfl

theorem rustLines_joinNl (ls : List Str) (h : goodLines ls) :
    rustLines (joinNl ls) = ls := by
  obtain ⟨hg, hlast⟩ := h
  cases ls with
  | nil => rfl
  | cons l0 ls0 =>
    have hsplit : splitNl (joinNl (l0 :: ls0)) = l0 :: ls0 :=
      splitNl_joinNl _ (by simp) (fun x hx => (hg x hx).1)
    have hne : (l0 :: ls0 : List Str) ≠ [] := by simp
    obtain ⟨la, hla⟩ : ∃ x, (l0 :: ls0).getLast? = some x :=
      ⟨_, List.getLast?_eq_getLast _ hne⟩
    have hlane : la ≠ [] := fun e => hlast (e ▸ hla)
    obtain ⟨a, as, rfl⟩ : ∃ a as, la = a :: as := by
      cases la with
      | nil => exact absurd rfl hlane
      | cons a as => exact ⟨a, as, rfl⟩
    rw [rustLines_eq, hsplit, hla]
    show ((l0 :: ls0).dropLast).map stripCr ++ [a :: as] = l0 :: ls0
    have hmap : ((l0 :: ls0).dropLast).map stripCr = (l0 :: ls0).dropLast := by
      have hcongr : ∀ x ∈ (l0 :: ls0).dropLast, stripCr x = id x := fun x hx =>
        stripCr_eq_self x ((hg x (List.dropLast_subset _ hx)).2)
      rw [List.map_congr_left hcongr, List.map_id]
    rw [hmap]
    have hg2 : (l0 :: ls0).getLast hne = a :: as := by
      have hq := List.getLast?_eq_getLast (l0 :: ls0) hne
      rw [hla] at hq
      exact (Option.some.inj hq).symm
    rw [← hg2]
    exact List.dropLast_append_getLast hne

theorem rustLines_eq_splitNl (s : Str) (h0 : s ≠ []) (hr : '\r' ∉ s)
    (hlf : s.getLast? ≠ some '\n') : rustLines s = splitNl s := by
  have hne := splitNl_ne_nil s
  have hlast := splitNl_last_ne_nil s h0 hlf
  obtain ⟨la, hla⟩ : ∃ x, (splitNl s).getLast? = some x :=
    ⟨_, List.getLast?_eq_getLast _ hne⟩
  have hlane : la ≠ [] := fun e => hlast (e ▸ hla)
  obtain ⟨a, as, rfl⟩ : ∃ a as, la = a :: as := by
    cases la with
    | nil => exact absurd rfl hlane
    | cons a as => exact ⟨a, as, rfl⟩
  rw [rustLines_eq, hla]
  show ((splitNl s).dropLast).map stripCr ++ [a :: as] = splitNl s
  have hmap : ((splitNl s).dropLast).map stripCr = (splitNl s).dropLast := by
    have hcongr : ∀ x ∈ (splitNl s).dropLast, stripCr x = id x := by
      intro x hx
      refine stripCr_eq_self x fun e => ?_
      exact hr (splitNl_mem_subset s x (List.dropLast_subset _ hx) '\r' (mem_of_getLastQ e))
    rw [List.map_congr_left hcongr, List.map_id]
  rw [hmap]
  have hg2 : (splitNl s).getLast hne = a :: as := by
    have hq := List.getLast?_eq_getLast (splitNl s) hne
    rw [hla] at hq
    exact (Option.some.inj hq).symm
  rw [← hg2]
  exact List.dropLast_append_getLast hne

theorem goodLines_rustLines (s : Str) (hr : '\r' ∉ s)
    (hlf : s.getLast? ≠ some '\n') : goodLines (rustLines s) := by
  by_cases h0 : s = []
  · subst h0
    exact ⟨by simp [rustLines_eq, splitNl], by simp [rustLines_eq, splitNl]⟩
  · rw [rustLines_eq_splitNl s h0 hr hlf]
    refine ⟨fun l hl => ⟨splitNl_mem_no_nl s l hl, fun e => ?_⟩, ?_⟩
    · exact hr (splitNl_mem_subset s l hl '\r' (mem_of_getLastQ e))
    · exact splitNl_last_ne_nil s h0 hlf

theorem joinNl_rustLines (s : Str) (hr : '\r' ∉ s)
    (hlf : s.getLast? ≠ some '\n') : joinNl (rustLines s) = s := by
  by_cases h0 : s = []
  · subst h0; rfl
  · rw [rustLines_eq_splitNl s h0 hr hlf, joinNl_splitNl]

theorem commentLine_joinNl (t : Str) (ls : List Str) (h : goodLines ls) :
    commentLine t (joinNl ls) = joinNl (ls.map (commentLineMap t)) := by
  unfold commentLine
  rw [rustLines_joinNl ls h]

theorem commentStart_joinNl (p : Str) (ls : List Str) (h : goodLines ls) :
    commentLinesStartingWith p (joinNl ls) = joinNl (ls.map (commentStartMap p)) := by
  unfold commentLinesStartingWith
  rw [rustLines_joinNl ls h]

theorem getLastQ_map (f : Str → Str) (ls : List Str) :
    (ls.map f).getLast? = ls.getLast?.map f := by
  induction ls with
  | nil => rfl
  | cons a as ih =>
    cases as with
    | nil => rfl
    | cons b bs =>
      simpa [List.map_cons, List.getLast?_cons_cons] using ih

theorem goodLine_commentMark_append (l : Str) (h : goodLine l) :
    goodLine (commentMark ++ l) := by
  constructor
  · intro hm
    rcases List.mem_append.mp hm with h1 | h1
    · revert h1; decide
    · exact h.1 h1
  · cases l with
    | nil => decide
    | cons a as =>
      rw [List.getLast?_append_cons]
      exact h.2

theorem commentLineMap_out (t l : Str) :
    commentLineMap t l = l ∨ commentLineMap t l = commentMark ++ l := by
  unfold commentLineMap
  split
  · exact Or.inr rfl
  · exact Or.inl rfl

theorem commentStartMap_out (p l : Str) :
    commentStartMap p l = l ∨ commentStartMap p l = commentMark ++ l := by
  unfold commentStartMap
  split
  · exact Or.inr rfl
  · exact Or.inl rfl

theorem goodLines_map_of (f : Str → Str)
    (hout : ∀ l, f l = l ∨ f l = commentMark ++ l)
    (ls : List Str) (h : goodLines ls) : goodLines (ls.map f) := by
  obtain ⟨hg, hlast⟩ := h
  constructor
  · intro x hx
    obtain ⟨l, hl, rfl⟩ := List.mem_map.mp hx
    rcases hout l with he | he <;> rw [he]
    · exact hg l hl
    · exact goodLine_commentMark_append l (hg l hl)
  · rw [getLastQ_map]
    intro e
    rcases hm : ls.getLast? with _ | la
    · rw [hm] at e; simp at e
    · rw [hm] at e
      have hfla : f la = [] := by simpa using e
      have hlane : la ≠ [] := fun h2 => hlast (h2 ▸ hm)
      rcases hout la with he | he
      · exact hlane (he ▸ hfla)
      · rw [he] at hfla
        have hne2 : commentMark ++ la ≠ [] := by
          have hcm : commentMark = ['-', '-', ' '] := by decide
          rw [hcm]
          simp
        exact hne2 hfla

theorem transformLine_def (l : Str) :
    transformLine l
      = commentStartMap alterPat (commentLineMap tCreateStorage (commentLineMap tDropStorage
          (commentLineMap tCreateAuth (commentLineMap tDropAuth l)))) := rfl

theorem map_map_transformLine (ls : List Str) :
    ((((ls.map (commentLineMap tDropAuth)).map (commentLineMap tCreateAuth)).map
        (commentLineMap tDropStorage)).map (commentLineMap tCreateStorage)).map
      (commentStartMap alterPat) = ls.map transformLine := by
  induction ls with
  | nil => simp only [List.map_nil]
  | cons l ls ih =>
    simp only [List.map_cons, transformLine_def]
    rw [ih]

theorem transform_joinNl (ls : List Str) (h : goodLines ls) :
    transform (joinNl ls) = joinNl (ls.map transformLine) := by
  have h1 := goodLines_map_of _ (commentLineMap_out tDropAuth) ls h
  have h2 := goodLines_map_of _ (commentLineMap_out tCreateAuth) _ h1
  have h3 := goodLines_map_of _ (commentLineMap_out tDropStorage) _ h2
  have h4 := goodLines_map_of _ (commentLineMap_out tCreateStorage) _ h3
  unfold transform
  rw [commentLine_joinNl _ _ h, commentLine_joinNl _ _ h1, commentLine_joinNl _ _ h2,
    commentLine_joinNl _ _ h3, commentStart_joinNl _ _ h4]
  exact congrArg joinNl (map_map_transformLine ls)

theorem dropWhile_append_single (p : Char → Bool) (c : Char) (hc : p c = false)
    (as : Str) :
    List.dropWhile p (as ++ [c]) = List.dropWhile p as ++ [c] := by
  induction as with
  | nil => simp [List.dropWhile, hc]
  | cons a as ih =>
    by_cases hpa : p a = true
    · simp [List.dropWhile_cons, hpa, ih]
    · simp [List.dropWhile_cons, hpa]

theorem trimEndWs_cons_of (c : Char) (xs : Str) (hc : isRustWs c = false) :
    trimEndWs (c :: xs) = c :: trimEndWs xs := by
  unfold trimEndWs
  rw [List.reverse_cons, dropWhile_append_single _ c hc, List.reverse_append]
  simp

theorem rustTrim_commentMark (l : Str) :
    ∃ ts, rustTrim (commentMark ++ l) = '-' :: ts := by
  have hcm : commentMark = ['-', '-', ' '] := by decide
  rw [hcm]
  show ∃ ts, rustTrim ('-' :: '-' :: ' ' :: l) = '-' :: ts
  unfold rustTrim
  rw [List.dropWhile_cons, if_neg (by decide : ¬(isRustWs '-' = true))]
  rw [trimEndWs_cons_of '-' _ (by decide)]
  exact ⟨_, rfl⟩

theorem rustTrim_commentMark_ne (l : Str) {t : Str} (ht : t.head? ≠ some '-') :
    rustTrim (commentMark ++ l) ≠ t := by
  obtain ⟨ts, hts⟩ := rustTrim_commentMark l
  rw [hts]
  intro e
  rw [← e] at ht
  simp at ht

theorem alterPat_not_on_comment (l : Str) :
    alterPat.isPrefixOf (rustTrim (commentMark ++ l)) = false := by
  obtain ⟨ts, hts⟩ := rustTrim_commentMark l
  rw [hts]
  rfl

theorem commentLineMap_pos {t l : Str} (h : rustTrim l = t) :
    commentLineMap t l = commentMark ++ l := by
  unfold commentLineMap
  rw [if_pos h]

theorem commentLineMap_neg {t l : Str} (h : rustTrim l ≠ t) :
    commentLineMap t l = l := by
  unfold commentLineMap
  rw [if_neg h]

theorem commentStartMap_pos {p l : Str} (h : p.isPrefixOf (rustTrim l) = true) :
    commentStartMap p l = commentMark ++ l := by
  unfold commentStartMap
  rw [if_pos h]

theorem commentStartMap_neg {p l : Str} (h : p.isPrefixOf (rustTrim l) = false) :
    commentStartMap p l = l := by
  unfold commentStartMap
  rw [if_neg (by simp [h])]

theorem transformLine_eq (l : Str) :
    transformLine l = if isTrigger l then commentMark ++ l else l := by
  have hDA : tDropAuth.head? ≠ some '-' := by decide
  have hCA : tCreateAuth.head? ≠ some '-' := by decide
  have hDS : tDropStorage.head? ≠ some '-' := by decide
  have hCS : tCreateStorage.head? ≠ some '-' := by decide
  unfold transformLine
  by_cases h1 : rustTrim l = tDropAuth
  · rw [commentLineMap_pos h1, commentLineMap_neg (rustTrim_commentMark_ne l hCA),
      commentLineMap_neg (rustTrim_commentMark_ne l hDS),
      commentLineMap_neg (rustTrim_commentMark_ne l hCS),
      commentStartMap_neg (alterPat_not_on_comment l)]
    have ht : isTrigger l = true := by simp [isTrigger, h1]
    rw [ht, if_pos rfl]
  · rw [commentLineMap_neg h1]
    by_cases h2 : rustTrim l = tCreateAuth
    · rw [commentLineMap_pos h2, commentLineMap_neg (rustTrim_commentMark_ne l hDS),
        commentLineMap_neg (rustTrim_commentMark_ne l hCS),
        commentStartMap_neg (alterPat_not_on_comment l)]
      have ht : isTrigger l = true := by simp [isTrigger, h2]
      rw [ht, if_pos rfl]
    · rw [commentLineMap_neg h2]
      by_cases h3 : rustTrim l = tDropStorage
      · rw [commentLineMap_pos h3, commentLineMap_neg (rustTrim_commentMark_ne l hCS),
          commentStartMap_neg (alterPat_not_on_comment l)]
        have ht : isTrigger l = true := by simp [isTrigger, h3]
        rw [ht, if_pos rfl]
      · rw [commentLineMap_neg h3]
        by_cases h4 : rustTrim l = tCreateStorage
        · rw [commentLineMap_pos h4,
            commentStartMap_neg (alterPat_not_on_comment l)]
          have ht : isTrigger l = true := by simp [isTrigger, h4]
          rw [ht, if_pos rfl]
        · rw [commentLineMap_neg h4]
          by_cases h5 : alterPat.isPrefixOf (rustTrim l) = true
          · rw [commentStartMap_pos h5]
            have ht : isTrigger l = true := by simp [isTrigger, h5]
            rw [ht, if_pos rfl]
          · rw [commentStartMap_neg (Bool.eq_false_iff.mpr h5)]
            have ht : isTrigger l = false := by
              simp [isTrigger, h1, h2, h3, h4, h5]
            rw [ht, if_neg (by simp)]

theorem isTrigger_commentMark (l : Str) : isTrigger (commentMark ++ l) = false := by
  have h1 := rustTrim_commentMark_ne l (t := tDropAuth) (by decide)
  have h2 := rustTrim_commentMark_ne l (t := tCreateAuth) (by decide)
  have h3 := rustTrim_commentMark_ne l (t := tDropStorage) (by decide)
  have h4 := rustTrim_commentMark_ne l (t := tCreateStorage) (by decide)
  simp [isTrigger, h1, h2, h3, h4, alterPat_not_on_comment l]

theorem transformLine_idem (l : Str) :
    transformLine (transformLine l) = transformLine l := by
  rw [transformLine_eq l]
  cases hb : isTrigger l with
  | false =>
    rw [if_neg (by simp)]
    rw [transformLine_eq l, hb, if_neg (by simp)]
  | true =>
    rw [if_pos rfl]
    rw [transformLine_eq (commentMark ++ l), isTrigger_commentMark,
      if_neg (by simp)]

theorem goodLines_map_transformLine (ls : List Str) (h : goodLines ls) :
    goodLines (ls.map transformLine) := by
  refine goodLines_map_of _ (fun l => ?_) ls h
  rw [transformLine_eq l]
  cases isTrigger l
  · exact Or.inl (by simp)
  · exact Or.inr (by simp)

theorem transform_eq_joinNl_map (s : Str) (hr : '\r' ∉ s)
    (hlf : s.getLast? ≠ some '\n') :
    transform s = joinNl ((rustLines s).map transformLine) := by
  conv_lhs => rw [← joinNl_rustLines s hr hlf]
  exact transform_joinNl _ (goodLines_rustLines s hr hlf)

theorem map_transformLine_idem (ls : List Str) :
    (ls.map transformLine).map transformLine = ls.map transformLine := by
  induction ls with
  | nil => simp only [List.map_nil]
  | cons l ls ih =>
    simp only [List.map_cons, transformLine_idem]
    rw [ih]

/-- The scheduler preserves the multiset of object indices: at every
reachable state, pending, in-flight and completed indices together are
a permutation of the enumerated ones. -/
theorem schedReach_perm (k c : Nat) (s : SchedState)
    (h : SchedReach c (schedInit k) s) :
    (s.pending ++ s.inflight ++ s.done).Perm (List.range k) := by
  induction h with
  | refl => simp [schedInit]
  | tail hr hstep ih =>
    cases hstep with
    | launch i rest infl dn hlen =>
      refine List.Perm.trans ?_ ih
      show (rest ++ (infl ++ [i]) ++ dn).Perm ((i :: rest) ++ infl ++ dn)
      have e1 : rest ++ (infl ++ [i]) ++ dn = (rest ++ infl) ++ i :: dn := by simp
      have e2 : (i :: rest) ++ infl ++ dn = i :: ((rest ++ infl) ++ dn) := by simp
      rw [e1, e2]
      exact List.perm_middle
    | complete pend pre post dn i =>
      refine List.Perm.trans ?_ ih
      show (pend ++ (pre ++ post) ++ (dn ++ [i])).Perm
        (pend ++ (pre ++ i :: post) ++ dn)
      have e1 : pend ++ (pre ++ post) ++ (dn ++ [i])
          = (pend ++ pre) ++ ((post ++ dn) ++ [i]) := by simp
      have e2 : pend ++ (pre ++ i :: post) ++ dn
          = (pend ++ pre) ++ (i :: (post ++ dn)) := by simp
      rw [e1, e2]
      refine List.Perm.append_left (pend ++ pre) ?_
      have hmid := @List.perm_middle Nat i (post ++ dn) []
      simpa using hmid

/-- A state from which no scheduler step is possible (with a positive
concurrency bound) has nothing pending and nothing in flight. -/
theorem sched_stuck_terminal (c : Nat) (hc : 1 ≤ c) (s : SchedState)
    (hstuck : ∀ t, ¬ SchedStep c s t) : s.pending = [] ∧ s.inflight = [] := by
  obtain ⟨pend, infl, dn⟩ := s
  cases infl with
  | cons x xs => exact absurd (SchedStep.complete pend [] xs dn x) (hstuck _)
  | nil =>
    cases pend with
    | nil => exact ⟨rfl, rfl⟩
    | cons i rest => exact absurd (SchedStep.launch i rest [] dn hc) (hstuck _)

/-- No scheduler step leaves a state with empty pending and in-flight
lists. -/
theorem sched_no_step_of_empty (c : Nat) (dn : List Nat) (t : SchedState) :
    ¬ SchedStep c ⟨[], [], dn⟩ t := by
  intro h
  generalize hsrc : (⟨[], [], dn⟩ : SchedState) = src at h
  cases h with
  | launch i rest infl dn2 hlen =>
    injection hsrc with h1 h2 h3
    simp at h1
  | complete pend pre post dn2 i =>
    injection hsrc with h1 h2 h3
    simp at h2

/-- At a terminal reachable state the completion list is a permutation
of the enumerated indices. -/
theorem sched_done_perm (k c : Nat) (s : SchedState)
    (hr : SchedReach c (schedInit k) s)
    (hp : s.pending = []) (hi : s.inflight = []) :
    s.done.Perm (List.range k) := by
  have h := schedReach_perm k c s hr
  rw [hp, hi] at h
  simpa using h

/-- Deploying a batch in which every registry answer is a success
attempts every artifact in order and counts them all. -/
theorem restoreFunctionsLoop_all_ok (n idx count : Nat) :
    restoreFunctionsLoop (List.replicate n true) idx count
      = (List.range' idx n, .ok (count + n)) := by
  induction n generalizing idx count with
  | zero => simp [restoreFunctionsLoop, List.range']
  | succ n ih =>
    simp [List.replicate_succ, restoreFunctionsLoop, ih, List.range']
    omega

/-- Deploying a batch whose first registry failure sits after `pre`
successes attempts exactly the artifacts up to and including the
failing one and propagates the error. -/
theorem restoreFunctionsLoop_failure (pre post : List Bool)
    (hpre : ∀ b ∈ pre, b = true) (idx count : Nat) :
    restoreFunctionsLoop (pre ++ false :: post) idx count
      = (List.range' idx (pre.length + 1), .error "Failed to deploy function") := by
  induction pre generalizing idx count with
  | nil => simp [restoreFunctionsLoop, List.range']
  | cons b pre ih =>
    have hb : b = true := hpre b (by simp)
    subst hb
    simp [restoreFunctionsLoop, ih (fun x hx => hpre x (by simp [hx])), List.range']

/-! ## Claim theorems -/

/-- Claim C1: `succeeded + failed == attempted` is claimed for every
per-bucket `SyncStats` and for the aggregate returned by `sync_all` /
`download_all`.  The per-bucket invariant holds (first conjunct), but
the aggregation loops of `sync_all` and `download_all` add only
`objects` and `bytes` of each bucket's statistics and drop `errors`:
for a run with one bucket whose single enumerated object fails, the
per-bucket record satisfies `0 + 1 = 1`, while the aggregate record
satisfies `objects + errors = 0` although one object was attempted. -/
theorem c1_aggregate_stats_drop_errors :
    (∀ rs : List MoveResult,
      (transferStatsOf rs).objects + (transferStatsOf rs).errors = rs.length)
    ∧ (transferStatsOf [Except.error "network error"]).objects
        + (transferStatsOf [Except.error "network error"]).errors = 1
    ∧ (syncAllFold [transferStatsOf [Except.error "network error"]]).objects
        + (syncAllFold [transferStatsOf [Except.error "network error"]]).errors = 0
    ∧ (downloadAllFold [transferStatsOf [Except.error "network error"]]).objects
        + (downloadAllFold [transferStatsOf [Except.error "network error"]]).errors = 0 := by
  refine ⟨transferStatsOf_objects_add_errors, by decide, by decide, by decide⟩

/-- Claim C2 (counterexample): with two artifacts whose registry
answers are failure then success, `restore_functions` propagates the
first deploy error via `?` and never attempts the second artifact —
the batch does not continue past a `FunctionDeployFailed`. -/
theorem c2_counterexample_failure_stops_batch :
    restoreFunctions [false, true] = ([0], .error "Failed to deploy function")
    ∧ 1 ∉ (restoreFunctions [false, true]).1 := by
  constructor
  · rfl
  · decide

/-- Claim C2 (amended): a non-success registry response aborts the
functions restore: when the artifacts before position `i` deploy
successfully and artifact `i` fails, exactly artifacts `0..i` are
attempted and the error is propagated (the artifacts after `i` are
never attempted and the success count is discarded); only a batch with
no failure deploys every artifact. -/
theorem c2_deploy_failure_aborts (pre post : List Bool)
    (hpre : ∀ b ∈ pre, b = true) :
    restoreFunctions (pre ++ false :: post)
      = (List.range (pre.length + 1), .error "Failed to deploy function")
    ∧ ∀ n, restoreFunctions (List.replicate n true) = (List.range n, .ok n) := by
  constructor
  · simpa [restoreFunctions, List.range_eq_range'] using
      restoreFunctionsLoop_failure pre post hpre 0 0
  · intro n
    simpa [restoreFunctions, List.range_eq_range'] using
      restoreFunctionsLoop_all_ok n 0 0

/-- Witness for `c2_deploy_failure_aborts` at a concrete batch: one
success, then a failure, then one further artifact. -/
theorem c2_witness :
    (∀ b ∈ [true], b = true)
    ∧ restoreFunctions ([true] ++ false :: [true])
        = (List.range 2, .error "Failed to deploy function") :=
  ⟨by decide, (c2_deploy_failure_aborts [true] [true] (by decide)).1⟩

/-- Claim C3 (counterexample): when the import tool exits with a
success status, diagnostics containing the literal token `"ERROR"` do
not fail the stage in either restore path, so "fails exactly when the
diagnostic text contains ERROR, regardless of exit status" is false. -/
theorem c3_counterexample_success_status_ignores_token :
    hasErrTok (strOf "ERROR: relation \"users\" already exists") = true
    ∧ restoreFromFileResult true (strOf "ERROR: relation \"users\" already exists")
        = .ok ()
    ∧ restoreFromStringResult true (strOf "ERROR: relation \"users\" already exists")
        = .ok () := by
  refine ⟨by decide, rfl, rfl⟩

/-- Claim C3 (amended): `restore_from_file` and `restore_from_string`
fail iff the import tool's exit status is non-success AND its
diagnostics contain the literal token `"ERROR"`.  Diagnostics without
the token never fail the stage; with a success exit status even
diagnostics containing the token are ignored. -/
theorem c3_failure_iff_nonsuccess_and_token (statusSuccess : Bool) (stderrTxt : Str) :
    ((restoreFromFileResult statusSuccess stderrTxt).isOk = false
      ↔ statusSuccess = false ∧ hasErrTok stderrTxt = true)
    ∧ ((restoreFromStringResult statusSuccess stderrTxt).isOk = false
        ↔ statusSuccess = false ∧ hasErrTok stderrTxt = true) := by
  cases statusSuccess <;> cases h : hasErrTok stderrTxt <;>
    simp [restoreFromFileResult, restoreFromStringResult, h, Except.isOk, Except.toBool]

/-- Claim C4 (counterexample): a bucket holding 1001 objects.  The
engine's single listing request returns at most 1000 objects, so the
1001st object (`"b"`) is not in the enumerated (attempted) set. -/
theorem c4_counterexample_truncated_enumeration :
    (List.replicate 1000 "a" ++ ["b"]).length = 1001
    ∧ "b" ∈ List.replicate 1000 "a" ++ ["b"]
    ∧ (enumerateObjects (List.replicate 1000 "a" ++ ["b"])).length = 1000
    ∧ "b" ∉ enumerateObjects (List.replicate 1000 "a" ++ ["b"]) := by
  have he : enumerateObjects (List.replicate 1000 "a" ++ ["b"])
      = List.replicate 1000 "a" := by
    rw [enumerateObjects_eq_take]
    exact List.take_left' (List.length_replicate 1000 "a")
  refine ⟨?_, ?_, ?_, ?_⟩
  · rw [List.length_append, List.length_replicate, List.length_singleton]
  · exact List.mem_append.mpr (Or.inr (List.mem_singleton.mpr rfl))
  · rw [he]; exact List.length_replicate 1000 "a"
  · rw [he]
    intro hmem
    exact absurd (List.eq_of_mem_replicate hmem) (by decide)

/-- Claim C4 (amended): the engine enumerates a bucket's objects with a
single listing request whose body has `limit = 1000`, `offset = 0` and
no prefix; there is no pagination loop, so the attempted set is the
first page only — at most the first 1000 objects of the bucket. -/
theorem c4_single_page_enumeration (objs : List String) :
    listObjectsBody none = { limit := 1000, offset := 0, prefixFilter := none }
    ∧ enumerateObjects objs = objs.take 1000 :=
  ⟨rfl, by simp [enumerateObjects, serverListObjects, listObjectsBody]⟩

/-- Claim C5 (counterexample): with both mode flags requested and a
healthy export tool, `dump_to_file` succeeds after invoking the tool
once with an argument list containing both `--schema-only` and
`--data-only`; no configuration error is raised before the invocation. -/
theorem c5_counterexample_both_flags_invoked :
    (dumpToFileRun ⟨"postgres://src", [], [], true, true⟩ "dump.sql"
        ⟨true, false, ""⟩).1 = .ok ()
    ∧ (dumpToFileRun ⟨"postgres://src", [], [], true, true⟩ "dump.sql"
        ⟨true, false, ""⟩).2
      = [dumpToFileArgs ⟨"postgres://src", [], [], true, true⟩ "dump.sql"]
    ∧ "--schema-only" ∈ dumpToFileArgs ⟨"postgres://src", [], [], true, true⟩ "dump.sql"
    ∧ "--data-only" ∈ dumpToFileArgs ⟨"postgres://src", [], [], true, true⟩ "dump.sql" := by
  refine ⟨rfl, rfl, by decide, by decide⟩

/-- Claim C5 (amended): requesting schema-only and data-only together
is not checked: `dump_to_file` and `dump_to_string` append both flags
to the argument list, and whenever the availability probe succeeds the
export tool is invoked with both flags present (the error enum offers
only `PgDumpNotFound` and `PgDumpFailed`, no configuration variant). -/
theorem c5_both_flags_pass_through (url outputPath : String)
    (schemas tables : List String) (env : DumpEnv) :
    "--schema-only" ∈ dumpToFileArgs ⟨url, schemas, tables, true, true⟩ outputPath
    ∧ "--data-only" ∈ dumpToFileArgs ⟨url, schemas, tables, true, true⟩ outputPath
    ∧ "--schema-only" ∈ dumpToStringArgs ⟨url, schemas, tables, true, true⟩
    ∧ "--data-only" ∈ dumpToStringArgs ⟨url, schemas, tables, true, true⟩
    ∧ (dumpToFileRun ⟨url, schemas, tables, true, true⟩ outputPath env).2
      = (if env.toolAvailable
          then [dumpToFileArgs ⟨url, schemas, tables, true, true⟩ outputPath]
          else []) := by
  obtain ⟨ta, rf, st⟩ := env
  refine ⟨?_, ?_, ?_, ?_, ?_⟩
  · simp [dumpToFileArgs]
  · simp [dumpToFileArgs]
  · simp [dumpToStringArgs]
  · simp [dumpToStringArgs]
  · cases ta <;> cases rf <;> simp [dumpToFileRun]

/-- Claim C6 (counterexample): the rewrite is not idempotent on all
snapshot text.  Each of the five passes re-splits and re-joins the
text, losing one trailing newline, so a text of six newlines maps to
`"\n"` under one application and to `""` under two. -/
theorem c6_counterexample_trailing_newlines :
    transform (transform (strOf "\n\n\n\n\n\n")) ≠ transform (strOf "\n\n\n\n\n\n") := by
  decide

/-- Claim C6 (amended): the rewrite is idempotent on every snapshot
text that contains no carriage return and does not end with a line
feed; on such text the line decomposition round-trips, and a line
already replaced by its commented form no longer matches any trigger. -/
theorem c6_transform_idem_of_tame (s : Str) (hr : '\r' ∉ s)
    (hlf : s.getLast? ≠ some '\n') :
    transform (transform s) = transform s := by
  have hg := goodLines_rustLines s hr hlf
  have h1 := transform_eq_joinNl_map s hr hlf
  have hg' : goodLines ((rustLines s).map transformLine) :=
    goodLines_map_transformLine _ hg
  rw [h1, transform_joinNl _ hg', map_transformLine_idem]

/-- Witness for `c6_transform_idem_of_tame` at a concrete snapshot with
a managed-schema line and an ordinary line. -/
theorem c6_witness :
    ('\r' ∉ strOf "DROP SCHEMA IF EXISTS \"auth\";\nSELECT 1;")
    ∧ (strOf "DROP SCHEMA IF EXISTS \"auth\";\nSELECT 1;").getLast? ≠ some '\n'
    ∧ transform (transform (strOf "DROP SCHEMA IF EXISTS \"auth\";\nSELECT 1;"))
        = transform (strOf "DROP SCHEMA IF EXISTS \"auth\";\nSELECT 1;") :=
  ⟨by decide, by decide,
   c6_transform_idem_of_tame (strOf "DROP SCHEMA IF EXISTS \"auth\";\nSELECT 1;")
     (by decide) (by decide)⟩

/-- Claim C7 (counterexample): the rewrite does not preserve line count
on all input.  A text whose last line is empty (here `"SELECT 1;\n\n"`,
two lines by the `lines()` decomposition) loses that line: the output
has one line. -/
theorem c7_counterexample_line_count :
    (rustLines (strOf "SELECT 1;\n\n")).length = 2
    ∧ (rustLines (transform (strOf "SELECT 1;\n\n"))).length = 1 := by
  constructor
  · decide
  · decide

/-- Claim C7 (amended): on every input that contains no carriage return
and does not end with a line feed, the rewrite is the per-line map
preserving line count and order, where a line is commented (prefixed
with `"-- "`) exactly when its trimmed form equals one of the four
managed-schema statements or starts with the privileges pattern, and
every other line passes through unchanged.  (On other inputs the
decomposition does not round-trip: trailing empty lines are dropped and
a `"\r\n"` terminator is normalised to `"\n"`.) -/
theorem c7_transform_per_line (s : Str) (hr : '\r' ∉ s)
    (hlf : s.getLast? ≠ some '\n') :
    rustLines (transform s) = (rustLines s).map transformLine
    ∧ (rustLines (transform s)).length = (rustLines s).length
    ∧ ∀ l : Str, transformLine l = if isTrigger l then commentMark ++ l else l := by
  have hg := goodLines_rustLines s hr hlf
  have hg' : goodLines ((rustLines s).map transformLine) :=
    goodLines_map_transformLine _ hg
  have h2 : rustLines (transform s) = (rustLines s).map transformLine := by
    rw [transform_eq_joinNl_map s hr hlf]
    exact rustLines_joinNl _ hg'
  exact ⟨h2, by rw [h2, List.length_map], transformLine_eq⟩

/-- Witness for `c7_transform_per_line` at a concrete snapshot with a
privileges line and an ordinary line. -/
theorem c7_witness :
    ('\r' ∉ strOf "ALTER DEFAULT PRIVILEGES FOR ROLE \"supabase_admin\" IN SCHEMA \"public\" GRANT ALL ON TABLES TO \"postgres\";\nSELECT 1;")
    ∧ (strOf "ALTER DEFAULT PRIVILEGES FOR ROLE \"supabase_admin\" IN SCHEMA \"public\" GRANT ALL ON TABLES TO \"postgres\";\nSELECT 1;").getLast? ≠ some '\n'
    ∧ (rustLines (transform (strOf "ALTER DEFAULT PRIVILEGES FOR ROLE \"supabase_admin\" IN SCHEMA \"public\" GRANT ALL ON TABLES TO \"postgres\";\nSELECT 1;"))).length
        = (rustLines (strOf "ALTER DEFAULT PRIVILEGES FOR ROLE \"supabase_admin\" IN SCHEMA \"public\" GRANT ALL ON TABLES TO \"postgres\";\nSELECT 1;")).length :=
  ⟨by decide, by decide,
   (c7_transform_per_line
     (strOf "ALTER DEFAULT PRIVILEGES FOR ROLE \"supabase_admin\" IN SCHEMA \"public\" GRANT ALL ON TABLES TO \"postgres\";\nSELECT 1;")
     (by decide) (by decide)).2.1⟩

/-- Claim C8: for every enumerated object set of size `k`, every
concurrency bound `c ≥ 1`, and every per-object move outcome `env`
(failures included), every maximal scheduler run of `buffer_unordered`
attempts each enumerated object exactly once — the completed list is a
permutation of the indices `0..k`, each counted once, with no duplicate
and no drop — and per-object failures neither abort the run nor
prevent the other attempts: regardless of `env`, the run ends only when
nothing is pending or in flight, and the resulting tally satisfies
`objects + errors = k`. -/
theorem c8_exactly_once_no_short_circuit (k c : Nat) (env : Nat → MoveResult)
    (s : SchedState) (hc : 1 ≤ c) (hr : SchedReach c (schedInit k) s)
    (hstuck : ∀ t, ¬ SchedStep c s t) :
    s.pending = [] ∧ s.inflight = []
    ∧ s.done.Perm (List.range k)
    ∧ (∀ i, s.done.count i = if i < k then 1 else 0)
    ∧ (transferStatsOf (s.done.map env)).objects
        + (transferStatsOf (s.done.map env)).errors = k := by
  obtain ⟨hp, hi⟩ := sched_stuck_terminal c hc s hstuck
  have hperm := sched_done_perm k c s hr hp hi
  refine ⟨hp, hi, hperm, ?_, ?_⟩
  · intro i
    rw [hperm.count_eq]
    by_cases hik : i < k
    · rw [if_pos hik]
      exact List.count_eq_one_of_mem (List.nodup_range k) (List.mem_range.mpr hik)
    · rw [if_neg hik]
      exact List.count_eq_zero_of_not_mem (by simpa using hik)
  · rw [transferStatsOf_objects_add_errors, List.length_map, hperm.length_eq,
      List.length_range]

/-- Witness for `c8_exactly_once_no_short_circuit`: one object,
concurrency one, a failing move; the maximal run launch-then-complete
ends with the single object attempted once and counted as the failure. -/
theorem c8_witness :
    SchedReach 1 (schedInit 1) ⟨[], [], [0]⟩
    ∧ (∀ t, ¬ SchedStep 1 (⟨[], [], [0]⟩ : SchedState) t)
    ∧ (transferStatsOf ((⟨[], [], [0]⟩ : SchedState).done.map
          (fun _ => Except.error "connection reset"))).objects
        + (transferStatsOf ((⟨[], [], [0]⟩ : SchedState).done.map
          (fun _ => Except.error "connection reset"))).errors = 1 := by
  have s1 : SchedStep 1 ⟨[0], [], []⟩ ⟨[], [0], []⟩ :=
    SchedStep.launch 0 [] [] [] (by decide)
  have s2 : SchedStep 1 ⟨[], [0], []⟩ ⟨[], [], [0]⟩ :=
    SchedStep.complete [] [] [] [] 0
  have hreach : SchedReach 1 (schedInit 1) ⟨[], [], [0]⟩ :=
    Relation.ReflTransGen.tail (Relation.ReflTransGen.tail Relation.ReflTransGen.refl s1) s2
  have hstuck : ∀ t, ¬ SchedStep 1 (⟨[], [], [0]⟩ : SchedState) t :=
    fun t => sched_no_step_of_empty 1 [0] t
  exact ⟨hreach, hstuck,
    (c8_exactly_once_no_short_circuit 1 1 (fun _ => Except.error "connection reset")
      ⟨[], [], [0]⟩ (by decide) hreach hstuck).2.2.2.2⟩

/-- Claim C9: the constructed export-tool invocation always contains
the exclusion of the platform-managed object-metadata table's row data,
in the dump-to-file and dump-to-string paths alike, and the schema
exclusions, when present, are combined into one alternation pattern
joined with `"|"`. -/
theorem c9_always_excludes_storage_objects (d : PgDump) (outputPath : String) :
    "--exclude-table-data=storage.objects" ∈ dumpToFileArgs d outputPath
    ∧ "--exclude-table-data=storage.objects" ∈ dumpToStringArgs d
    ∧ (d.excludedSchemas.isEmpty = false →
        ("--exclude-schema=" ++ String.intercalate "|" d.excludedSchemas)
            ∈ dumpToFileArgs d outputPath
        ∧ ("--exclude-schema=" ++ String.intercalate "|" d.excludedSchemas)
            ∈ dumpToStringArgs d) := by
  refine ⟨?_, ?_, fun h => ⟨?_, ?_⟩⟩
  · simp [dumpToFileArgs]
  · simp [dumpToStringArgs]
  · simp [dumpToFileArgs, h]
  · simp [dumpToStringArgs, h]

/-- Witness for `c9_always_excludes_storage_objects` at a concrete dump
configuration with two excluded schemas. -/
theorem c9_witness :
    "--exclude-table-data=storage.objects"
        ∈ dumpToFileArgs ⟨"postgres://src", ["auth", "storage"], [], false, false⟩ "dump.sql"
    ∧ (["auth", "storage"] : List String).isEmpty = false
    ∧ ("--exclude-schema=" ++ String.intercalate "|" ["auth", "storage"])
        ∈ dumpToStringArgs ⟨"postgres://src", ["auth", "storage"], [], false, false⟩ :=
  ⟨(c9_always_excludes_storage_objects ⟨"postgres://src", ["auth", "storage"], [], false, false⟩ "dump.sql").1,
   rfl,
   ((c9_always_excludes_storage_objects ⟨"postgres://src", ["auth", "storage"], [], false, false⟩ "dump.sql").2.2 rfl).2⟩

/-- Claim C10: `sync_all` on a transfer built by `new` without
`with_target` hits the `expect` and panics with "Target client required
for sync" instead of returning an error value; whenever a target is
set, the panic branch is unreachable and `sync_all` returns a
`Result`. -/
theorem c10_sync_without_target_crashes :
    (∀ (src : String) (env : SyncEnv),
      syncAllRun (StorageTransfer.new src) env
        = .crash "Target client required for sync")
    ∧ ∀ (t : StorageTransfer) (env : SyncEnv), t.target.isSome = true →
        ∃ r, syncAllRun t env = .ret r := by
  constructor
  · intro src env; rfl
  · intro t env h
    obtain ⟨s, tg, p⟩ := t
    cases tg with
    | none => simp at h
    | some x => exact ⟨_, rfl⟩

/-- Witness for `c10_sync_without_target_crashes` at a transfer with a
target set. -/
theorem c10_witness :
    ((StorageTransfer.new "https://src").withTarget "https://tgt").target.isSome = true
    ∧ ∃ r, syncAllRun ((StorageTransfer.new "https://src").withTarget "https://tgt")
        ⟨.ok [], fun _ => .ok initStats⟩ = .ret r :=
  ⟨rfl, c10_sync_without_target_crashes.2 _ ⟨.ok [], fun _ => .ok initStats⟩ rfl⟩

end Supamigrate
